import Mathlib

/-!
Shallow embedding of the streaming speech-to-text core of this repository
(`CharTokenizer`, `RealTimeStreamer` and its worker loops).  Python strings
are modelled as `List Char`, Python floats as `ℚ`, and the dynamically typed
result queue as a sum type `QItem`.
-/

/-- Python `str.strip()`: drop leading and trailing whitespace. -/
def pyStrip (s : List Char) : List Char :=
  ((s.dropWhile Char.isWhitespace).reverse.dropWhile Char.isWhitespace).reverse

/-- Python `str.upper()`: upper-case every character. -/
def pyUpper (s : List Char) : List Char := s.map Char.toUpper

/-- The tokenizer vocabulary string `" ABCDEFGHIJKLMNOPQRSTUVWXYZ"` followed by
the apostrophe character (code point 39): `CharTokenizer.__init__`s
`self.chars`. -/
def tokChars : List Char :=
  [' ', 'A', 'B', 'C', 'D', 'E', 'F', 'G', 'H', 'I', 'J', 'K', 'L', 'M',
   'N', 'O', 'P', 'Q', 'R', 'S', 'T', 'U', 'V', 'W', 'X', 'Y', 'Z', Char.ofNat 39]

/-- `CharTokenizer.blank_idx`. -/
def tokBlankIdx : Nat := 0

/-- `char_to_idx.get(char, char_to_idx[' '])`: position of the character in the
vocabulary, defaulting to the space index 0 for unknown characters. -/
def tokCharToIdx (c : Char) : Nat :=
  if c ∈ tokChars then tokChars.indexOf c else 0

/-- `CharTokenizer.encode`: upper-case the text, then map each character. -/
def tokEncode (text : List Char) : List Nat :=
  (pyUpper text).map tokCharToIdx

/-- `idx_to_char.get(idx, '')`: the character at an index, or the empty string
for an out-of-range index (as a zero-or-one element character list). -/
def tokIdxToCharL (i : Nat) : List Char :=
  match tokChars[i]? with
  | some c => [c]
  | none => []

/-- `CharTokenizer.decode`: drop the blank index, map the remaining indices to
characters, concatenate, and strip. -/
def tokDecode (indices : List Nat) : List Char :=
  pyStrip ((indices.filter (fun i => i ≠ tokBlankIdx)).flatMap tokIdxToCharL)

/-- Modelled from the spec: the visible character set (space, the letters
A to Z, apostrophe) that the vocabulary claims to cover. -/
def visibleChars : List Char :=
  [' ', 'A', 'B', 'C', 'D', 'E', 'F', 'G', 'H', 'I', 'J', 'K', 'L', 'M',
   'N', 'O', 'P', 'Q', 'R', 'S', 'T', 'U', 'V', 'W', 'X', 'Y', 'Z', Char.ofNat 39]

/-- Mean squared amplitude `np.sum(chunk ** 2) / len(chunk)` from
`RealTimeStreamer._detect_speech_energy`. -/
def meanSqAmp (chunk : List ℚ) : ℚ :=
  (chunk.map (fun x => x * x)).sum / (chunk.length : ℚ)

/-- `RealTimeStreamer._detect_speech_energy`: `energy > 0.001`. -/
def detectSpeechEnergy (chunk : List ℚ) : Bool :=
  decide (meanSqAmp chunk > 1 / 1000)

/-- Helper for `torch.argmax` over one row: first index of the maximal value. -/
def argmaxAux (best : Nat) (bestV : ℚ) (i : Nat) : List ℚ → Nat
  | [] => best
  | v :: rest => if bestV < v then argmaxAux i v (i + 1) rest else argmaxAux best bestV (i + 1) rest

/-- `torch.argmax` over one probability row (ties broken by lowest index). -/
def argmaxIdx : List ℚ → Nat
  | [] => 0
  | v :: rest => argmaxAux 0 v 1 rest

/-- `torch.argmax(log_probs, dim=-1)`: per-frame argmax over the
label-probability matrix. -/
def argmaxSeq (m : List (List ℚ)) : List Nat := m.map argmaxIdx

/-- The configuration of a `RealTimeStreamer`: `self.chunk_size` and
`self.overlap_size` in samples. -/
structure StreamCfg where
  chunkSize : Nat
  overlapSize : Nat
deriving DecidableEq

/-- `self.sample_rate = 16000`, hard-coded in `RealTimeStreamer.__init__`. -/
def sampleRate : Nat := 16000

/-- A model adapter: maps a chunk of samples to a Frames × VocabSize matrix of
log-probabilities (the black-box `self.model`). -/
def ModelAdapter : Type := List ℚ → List (List ℚ)

/-- `RealTimeStreamer.process_audio_chunk`, instrumented with the number of
model-adapter invocations it performs (0 or 1): a chunk shorter than
`chunk_size` returns the empty string at once; otherwise the model runs, the
per-frame argmax is taken and decoded by the tokenizer. -/
def processAudioChunkCnt (cfg : StreamCfg) (model : ModelAdapter) (chunk : List ℚ) :
    List Char × Nat :=
  if chunk.length < cfg.chunkSize then ([], 0)
  else (tokDecode (argmaxSeq (model chunk)), 1)

/-- Python `range(0, stop, step)` for a nonnegative stop and positive step
(by convention `[]` when `step = 0`). -/
def pyRange (stop step : Nat) : List Nat :=
  if step = 0 then [] else (List.range ((stop + step - 1) / step)).map (fun k => k * step)

/-- The window offsets walked by `_simulate_realtime_processing`:
`range(0, len(waveform) - chunk_size, chunk_size - overlap_size)`. -/
def simOffsets (cfg : StreamCfg) (L : Nat) : List Nat :=
  pyRange (L - cfg.chunkSize) (cfg.chunkSize - cfg.overlapSize)

/-- The window offsets walked by `process_uploaded_audio`:
`range(0, len(waveform) - chunk_size, chunk_size // 2)`. -/
def uplOffsets (cfg : StreamCfg) (L : Nat) : List Nat :=
  pyRange (L - cfg.chunkSize) (cfg.chunkSize / 2)

/-- An element of the dynamically typed result queue: either a bare
transcription string or a (timestamp, text) pair. -/
inductive QItem where
  | txt (s : List Char)
  | pair (t : ℚ) (s : List Char)
deriving DecidableEq

/-- Whether a queue element is a (timestamp, text) pair. -/
def QItem.isPair : QItem → Bool
  | QItem.txt _ => false
  | QItem.pair _ _ => true

/-- The observable state produced by one run of the asynchronous worker loop:
the result-queue contents in put order, a ghost list of (window offset,
published text) pairs in publish order, and a ghost list of the window offsets
at which the model adapter was invoked. -/
structure SimTrace where
  queue : List QItem
  pub : List (Nat × List Char)
  invoked : List Nat
deriving DecidableEq

/-- The body of `_simulate_realtime_processing` over a list of window offsets:
slice the chunk, gate it by energy, run `process_audio_chunk`, and put the
transcription (a bare string) on the result queue when its strip is
non-empty. -/
def simRun (cfg : StreamCfg) (model : ModelAdapter) (wave : List ℚ) :
    List Nat → SimTrace
  | [] => ⟨[], [], []⟩
  | i :: rest =>
    let chunk := (wave.drop i).take cfg.chunkSize
    let tr := simRun cfg model wave rest
    if detectSpeechEnergy chunk then
      let r := processAudioChunkCnt cfg model chunk
      let inv := if r.2 = 0 then tr.invoked else i :: tr.invoked
      if pyStrip r.1 ≠ [] then
        ⟨QItem.txt r.1 :: tr.queue, (i, r.1) :: tr.pub, inv⟩
      else ⟨tr.queue, tr.pub, inv⟩
    else tr

/-- `RealTimeStreamer._simulate_realtime_processing` (pacing sleeps elided;
they do not affect the published data). -/
def simTrace (cfg : StreamCfg) (model : ModelAdapter) (wave : List ℚ) : SimTrace :=
  simRun cfg model wave (simOffsets cfg wave.length)

/-- The body of `process_uploaded_audio` over a list of window offsets: gated
windows that decode to non-empty text are appended to the results list as
`(i / sample_rate, transcription)` pairs. -/
def uplRun (cfg : StreamCfg) (model : ModelAdapter) (wave : List ℚ) :
    List Nat → List (ℚ × List Char)
  | [] => []
  | i :: rest =>
    let chunk := (wave.drop i).take cfg.chunkSize
    let tr := uplRun cfg model wave rest
    if detectSpeechEnergy chunk then
      let r := processAudioChunkCnt cfg model chunk
      if pyStrip r.1 ≠ [] then ((i : ℚ) / (sampleRate : ℚ), r.1) :: tr else tr
    else tr

/-- `RealTimeStreamer.process_uploaded_audio`: the fully synchronous batch
variant returning the ordered (timestamp, text) list. -/
def processUploadedAudio (cfg : StreamCfg) (model : ModelAdapter) (wave : List ℚ) :
    List (ℚ × List Char) :=
  uplRun cfg model wave (uplOffsets cfg wave.length)

/-- `RealTimeStreamer.get_latest_transcription`: `result_queue.get_nowait()`
returning `None` when the queue is empty, modelled on the queue contents. -/
def getLatestTranscription : List QItem → Option QItem × List QItem
  | [] => (none, [])
  | x :: xs => (some x, xs)

/-! ## Helper lemmas for the tokenizer -/

/-- Per-character facts about the vocabulary, checked by computation: encoding
an upper-cased vocabulary character and decoding it back is the identity, the
encoded index is the blank index exactly for the space character, and every
non-space vocabulary character is non-whitespace. -/
theorem tok_char_facts : ∀ c ∈ tokChars,
    (tokCharToIdx (Char.toUpper c) = tokBlankIdx ↔ c = ' ') ∧
    tokIdxToCharL (tokCharToIdx (Char.toUpper c)) = [c] ∧
    (c ≠ ' ' → c.isWhitespace = false) := by decide

theorem dropWhile_eq_self_of_all_false (p : Char → Bool) :
    ∀ l : List Char, (∀ c ∈ l, p c = false) → l.dropWhile p = l := by
  intro l h
  cases l with
  | nil => rfl
  | cons a t =>
    have ha : p a = false := h a (List.mem_cons_self a t)
    simp [List.dropWhile, ha]

theorem pyStrip_eq_self (s : List Char) (h : ∀ c ∈ s, c.isWhitespace = false) :
    pyStrip s = s := by
  unfold pyStrip
  rw [dropWhile_eq_self_of_all_false _ s h]
  rw [dropWhile_eq_self_of_all_false _ s.reverse (fun c hc => h c (List.mem_reverse.mp hc))]
  exact List.reverse_reverse s

theorem tokEncode_cons (c : Char) (T : List Char) :
    tokEncode (c :: T) = tokCharToIdx (Char.toUpper c) :: tokEncode T := rfl

theorem tok_core_roundtrip : ∀ T : List Char, (∀ c ∈ T, c ∈ tokChars) →
    ((tokEncode T).filter (fun i => i ≠ tokBlankIdx)).flatMap tokIdxToCharL
      = T.filter (fun c => c ≠ ' ') := by
  intro T
  induction T with
  | nil => intro _; rfl
  | cons c T ih =>
    intro h
    have hc : c ∈ tokChars := h c (List.mem_cons_self c T)
    have hrest : ∀ x ∈ T, x ∈ tokChars := fun x hx => h x (List.mem_cons_of_mem c hx)
    have hfacts := tok_char_facts c hc
    rw [tokEncode_cons, List.filter_cons, List.filter_cons]
    by_cases hsp : c = ' '
    · have h0 : tokCharToIdx (Char.toUpper c) = tokBlankIdx := hfacts.1.mpr hsp
      rw [if_neg (by simp [h0]), if_neg (by simp [hsp]), ih hrest]
    · have h0 : tokCharToIdx (Char.toUpper c) ≠ tokBlankIdx := fun he => hsp (hfacts.1.mp he)
      rw [if_pos (by simpa using h0), if_pos (by simpa using hsp)]
      rw [List.flatMap_cons, hfacts.2.1, ih hrest]
      rfl

/-! ## C1 -/

/-- C1 counterexample: for the vocabulary-only text `" A B "`, decoding its
encoding does not give the text upper-cased and stripped: the space between
`A` and `B` is lost because the space index coincides with the blank index
that `decode` drops. -/
theorem c1_cex :
    tokDecode (tokEncode [' ', 'A', ' ', 'B', ' '])
      ≠ pyStrip (pyUpper [' ', 'A', ' ', 'B', ' ']) := by decide

/-- C1 amended: for every text consisting only of vocabulary characters,
`decode(encode(T))` equals `T` with every space removed (not merely trimmed):
since the blank index is also the space index, `decode` drops all spaces, and
the final strip is then vacuous. -/
theorem c1_thm (T : List Char) (h : ∀ c ∈ T, c ∈ tokChars) :
    tokDecode (tokEncode T) = T.filter (fun c => c ≠ ' ') := by
  unfold tokDecode
  rw [tok_core_roundtrip T h]
  apply pyStrip_eq_self
  intro c hc
  have hmem := List.mem_of_mem_filter hc
  have hne : c ≠ ' ' := by
    have := List.of_mem_filter hc
    simpa using this
  exact (tok_char_facts c (h c hmem)).2.2 hne

/-- C1 witness: the amended round-trip evaluated on the concrete text
`" A B "`. -/
theorem c1_wit :
    tokDecode (tokEncode [' ', 'A', ' ', 'B', ' ']) = ['A', 'B'] := by
  have := c1_thm [' ', 'A', ' ', 'B', ' '] (by decide)
  simpa using this

/-! ## C3 -/

/-- C3 counterexample: the blank index 0 is not distinct from the visible
character set: the vocabulary entry at the blank index is the space character,
which belongs to the visible set. -/
theorem c3_cex :
    tokBlankIdx = 0 ∧ tokChars[tokBlankIdx]? = some ' ' ∧ ' ' ∈ visibleChars := by
  decide

/-- C3 amended: index 0 is the blank index but it coincides with the space
character rather than being a reserved symbol distinct from the visible set;
the vocabulary has 28 distinct entries, and indices 1 to 27 map bijectively
onto the visible characters other than space (A to Z and the apostrophe). -/
theorem c3_thm :
    tokBlankIdx = 0 ∧ tokChars[tokBlankIdx]? = some ' ' ∧
    tokChars.length = 28 ∧ tokChars.Nodup ∧
    tokChars.drop 1 = visibleChars.filter (fun c => c ≠ ' ') := by
  decide

/-! ## C2 -/

/-- C2 counterexample: a concrete probability matrix whose per-frame argmax
sequence is `[blank, H, H, I, blank]` decodes to `"HHI"`, not `"HI"`:
`CharTokenizer.decode` drops blanks but performs no repeat-collapse. -/
theorem c2_cex :
    argmaxSeq [[(1 : ℚ)], [0, 0, 0, 0, 0, 0, 0, 0, 1], [0, 0, 0, 0, 0, 0, 0, 0, 1],
        [0, 0, 0, 0, 0, 0, 0, 0, 0, 1], [1]] = [tokBlankIdx, 8, 8, 9, tokBlankIdx] ∧
    (processAudioChunkCnt ⟨1, 0⟩
        (fun _ => [[(1 : ℚ)], [0, 0, 0, 0, 0, 0, 0, 0, 1], [0, 0, 0, 0, 0, 0, 0, 0, 1],
          [0, 0, 0, 0, 0, 0, 0, 0, 0, 1], [1]]) [0]).1 ≠ ['H', 'I'] := by decide

/-- C2 amended: the decoder does not collapse consecutive identical non-blank
argmax frames; every probability matrix whose argmax sequence is
`[blank, H, H, I, blank]` decodes to `"HHI"` (one character per non-blank
frame), not `"HI"`. -/
theorem c2_thm (cfg : StreamCfg) (model : ModelAdapter) (chunk : List ℚ)
    (h1 : ¬ chunk.length < cfg.chunkSize)
    (h2 : argmaxSeq (model chunk) = [tokBlankIdx, 8, 8, 9, tokBlankIdx]) :
    (processAudioChunkCnt cfg model chunk).1 = ['H', 'H', 'I'] := by
  unfold processAudioChunkCnt
  rw [if_neg h1, h2]
  decide

/-- C2 witness: the amended statement applied to a concrete configuration,
stub model and chunk. -/
theorem c2_wit :
    (processAudioChunkCnt ⟨1, 0⟩
        (fun _ => [[(1 : ℚ)], [0, 0, 0, 0, 0, 0, 0, 0, 1], [0, 0, 0, 0, 0, 0, 0, 0, 1],
          [0, 0, 0, 0, 0, 0, 0, 0, 0, 1], [1]]) [0]).1 = ['H', 'H', 'I'] :=
  c2_thm ⟨1, 0⟩
    (fun _ => [[(1 : ℚ)], [0, 0, 0, 0, 0, 0, 0, 0, 1], [0, 0, 0, 0, 0, 0, 0, 0, 1],
      [0, 0, 0, 0, 0, 0, 0, 0, 0, 1], [1]]) [0] (by decide) (by decide)

/-! ## C4 -/

/-- Modelled from the spec: the window-count formula claimed in C4,
`max(0, floor((L - C) / (C - O)) + 1)`, with Python floor division. -/
def claimWindowCount (L C O : Int) : Int := max 0 ((L - C).fdiv (C - O) + 1)

/-- Membership in the Python range `range(0, stop, step)`: exactly the
multiples of `step` that are strictly below `stop`. -/
theorem pyRange_mem (stop step : Nat) (hstep : 0 < step) (off : Nat) :
    off ∈ pyRange stop step ↔ ∃ k, off = k * step ∧ off < stop := by
  unfold pyRange
  rw [if_neg (Nat.pos_iff_ne_zero.mp hstep)]
  simp only [List.mem_map, List.mem_range]
  constructor
  · rintro ⟨k, hk, rfl⟩
    refine ⟨k, rfl, ?_⟩
    have h2 : (k + 1) * step ≤ stop + step - 1 := (Nat.le_div_iff_mul_le hstep).mp hk
    have h3 : k * step + step ≤ stop + step - 1 := by rw [add_mul, one_mul] at h2; exact h2
    omega
  · rintro ⟨k, rfl, hlt⟩
    refine ⟨k, ?_, rfl⟩
    have h3 : k * step + step ≤ stop + step - 1 := by omega
    have h2 : (k + 1) * step ≤ stop + step - 1 := by rw [add_mul, one_mul]; exact h3
    exact (Nat.le_div_iff_mul_le hstep).mpr h2

/-- C4 counterexample: with chunk size 2, overlap 1 and a sample sequence of
length 2, the window at offset 0 satisfies `offset + C ≤ L` and the claimed
formula counts 1 window, but the loop bound `range(0, L - C, step)` is strict,
so the code produces none. -/
theorem c4_cex :
    ((simOffsets ⟨2, 1⟩ 2).length : Int) ≠ claimWindowCount 2 2 1 := by decide

/-- C4 amended: in fixed-file mode the windows are produced at offsets
`0, step, 2 step, ...` for every offset with `offset + C < L` (strictly, so a
window ending exactly at the end of the sequence is dropped), and the number
of windows is `ceil((L - C) / (C - O))` (with truncated subtraction), not
`floor((L - C) / (C - O)) + 1`. -/
theorem c4_thm (C O L : Nat) (h : O < C) :
    (simOffsets ⟨C, O⟩ L).length = ((L - C) + (C - O) - 1) / (C - O) ∧
    ∀ off, off ∈ simOffsets ⟨C, O⟩ L ↔ ∃ k, off = k * (C - O) ∧ off + C < L := by
  have hstep : 0 < C - O := by omega
  constructor
  · show (pyRange (L - C) (C - O)).length = _
    unfold pyRange
    rw [if_neg (Nat.pos_iff_ne_zero.mp hstep)]
    simp
  · intro off
    rw [show simOffsets ⟨C, O⟩ L = pyRange (L - C) (C - O) from rfl]
    rw [pyRange_mem _ _ hstep]
    constructor
    · rintro ⟨k, rfl, hlt⟩; exact ⟨k, rfl, by omega⟩
    · rintro ⟨k, rfl, hlt⟩; exact ⟨k, rfl, by omega⟩

/-- C4 witness: the amended statement at chunk size 2, overlap 1 and length 5:
three windows at offsets 0, 1, 2, and offset 3 (the exactly-fitting tail
window) is excluded. -/
theorem c4_wit :
    (simOffsets ⟨2, 1⟩ 5).length = ((5 - 2) + (2 - 1) - 1) / (2 - 1) ∧
    (0 ∈ simOffsets ⟨2, 1⟩ 5 ↔ ∃ k, 0 = k * (2 - 1) ∧ 0 + 2 < 5) ∧
    (3 ∈ simOffsets ⟨2, 1⟩ 5 ↔ ∃ k, 3 = k * (2 - 1) ∧ 3 + 2 < 5) :=
  ⟨(c4_thm 2 1 5 (by decide)).1, (c4_thm 2 1 5 (by decide)).2 0, (c4_thm 2 1 5 (by decide)).2 3⟩

/-! ## C9 -/

/-- C9: polling the result queue when it is empty yields `none` (the
documented no-result case, no exception and no blocking, modelled by
totality), and polling a non-empty queue yields its first element and the
remaining queue. -/
theorem c9_thm :
    getLatestTranscription [] = (none, []) ∧
    ∀ (x : QItem) (xs : List QItem), getLatestTranscription (x :: xs) = (some x, xs) :=
  ⟨rfl, fun _ _ => rfl⟩

/-! ## C10 -/

/-- C10: a chunk strictly shorter than the configured chunk size makes
`process_audio_chunk` return the empty string with zero model-adapter
invocations. -/
theorem c10_thm (cfg : StreamCfg) (model : ModelAdapter) (chunk : List ℚ)
    (h : chunk.length < cfg.chunkSize) :
    processAudioChunkCnt cfg model chunk = ([], 0) := by
  unfold processAudioChunkCnt
  rw [if_pos h]

/-- C10 witness: the empty chunk against a chunk size of 2. -/
theorem c10_wit : processAudioChunkCnt ⟨2, 1⟩ (fun _ => []) [] = ([], 0) :=
  c10_thm ⟨2, 1⟩ (fun _ => []) [] (by decide)

/-! ## Helper lemmas for the worker loops -/

theorem simRun_queue_eq (cfg : StreamCfg) (model : ModelAdapter) (wave : List ℚ) :
    ∀ offs : List Nat,
      (simRun cfg model wave offs).queue
        = (simRun cfg model wave offs).pub.map (fun p => QItem.txt p.2) := by
  intro offs
  induction offs with
  | nil => rfl
  | cons i rest ih =>
    simp only [simRun]
    by_cases hd : detectSpeechEnergy ((wave.drop i).take cfg.chunkSize) = true
    · rw [if_pos hd]
      by_cases hp :
          pyStrip (processAudioChunkCnt cfg model ((wave.drop i).take cfg.chunkSize)).1 ≠ []
      · rw [if_pos hp]
        simp [ih]
      · rw [if_neg hp]
        exact ih
    · rw [if_neg hd]
      exact ih

theorem uplRun_mem (cfg : StreamCfg) (model : ModelAdapter) (wave : List ℚ) :
    ∀ (offs : List Nat) (r : ℚ × List Char), r ∈ uplRun cfg model wave offs →
      ∃ i, i ∈ offs ∧ r.1 = (i : ℚ) / (sampleRate : ℚ) ∧
        r.2 = (processAudioChunkCnt cfg model ((wave.drop i).take cfg.chunkSize)).1 := by
  intro offs
  induction offs with
  | nil => intro r hr; simp [uplRun] at hr
  | cons i rest ih =>
    intro r hr
    simp only [uplRun] at hr
    by_cases hd : detectSpeechEnergy ((wave.drop i).take cfg.chunkSize) = true
    · rw [if_pos hd] at hr
      by_cases hp :
          pyStrip (processAudioChunkCnt cfg model ((wave.drop i).take cfg.chunkSize)).1 ≠ []
      · rw [if_pos hp] at hr
        rcases List.mem_cons.mp hr with h1 | h2
        · exact ⟨i, List.mem_cons_self i rest, by rw [h1], by rw [h1]⟩
        · obtain ⟨j, hj, hr1, hr2⟩ := ih r h2
          exact ⟨j, List.mem_cons_of_mem i hj, hr1, hr2⟩
      · rw [if_neg hp] at hr
        obtain ⟨j, hj, hr1, hr2⟩ := ih r hr
        exact ⟨j, List.mem_cons_of_mem i hj, hr1, hr2⟩
    · rw [if_neg hd] at hr
      obtain ⟨j, hj, hr1, hr2⟩ := ih r hr
      exact ⟨j, List.mem_cons_of_mem i hj, hr1, hr2⟩

theorem simRun_invoked_gate (cfg : StreamCfg) (model : ModelAdapter) (wave : List ℚ) :
    ∀ (offs : List Nat) (i : Nat), i ∈ (simRun cfg model wave offs).invoked →
      detectSpeechEnergy ((wave.drop i).take cfg.chunkSize) = true := by
  intro offs
  induction offs with
  | nil => intro i hi; simp [simRun] at hi
  | cons j rest ih =>
    intro i hi
    simp only [simRun] at hi
    by_cases hd : detectSpeechEnergy ((wave.drop j).take cfg.chunkSize) = true
    · rw [if_pos hd] at hi
      by_cases hp :
          pyStrip (processAudioChunkCnt cfg model ((wave.drop j).take cfg.chunkSize)).1 ≠ []
      · rw [if_pos hp] at hi
        simp only at hi
        by_cases hcnt : (processAudioChunkCnt cfg model ((wave.drop j).take cfg.chunkSize)).2 = 0
        · rw [if_pos hcnt] at hi
          exact ih i hi
        · rw [if_neg hcnt] at hi
          rcases List.mem_cons.mp hi with h1 | h2
          · rw [h1]; exact hd
          · exact ih i h2
      · rw [if_neg hp] at hi
        simp only at hi
        by_cases hcnt : (processAudioChunkCnt cfg model ((wave.drop j).take cfg.chunkSize)).2 = 0
        · rw [if_pos hcnt] at hi
          exact ih i hi
        · rw [if_neg hcnt] at hi
          rcases List.mem_cons.mp hi with h1 | h2
          · rw [h1]; exact hd
          · exact ih i h2
    · rw [if_neg hd] at hi
      exact ih i hi

/-! ## C5 -/

/-- C5 counterexample: on a concrete run of the asynchronous worker, the
result queue holds a bare transcription string, not a (timestamp, text) pair;
no timestamp is ever attached on this surface. -/
theorem c5_cex :
    ((simTrace ⟨1, 0⟩
        (fun _ => [[(0 : ℚ), 0, 0, 0, 0, 0, 0, 0, 1], [0, 0, 0, 0, 0, 0, 0, 0, 0, 1]])
        [1, 1]).queue.all QItem.isPair) = false := by
  have h1 : simTrace ⟨1, 0⟩
      (fun _ => [[(0 : ℚ), 0, 0, 0, 0, 0, 0, 0, 1], [0, 0, 0, 0, 0, 0, 0, 0, 0, 1]])
      [1, 1]
      = simRun ⟨1, 0⟩
        (fun _ => [[(0 : ℚ), 0, 0, 0, 0, 0, 0, 0, 1], [0, 0, 0, 0, 0, 0, 0, 0, 0, 1]])
        [1, 1] [0] := by
    rw [simTrace, show (([1, 1] : List ℚ)).length = 2 from rfl,
      show simOffsets ⟨1, 0⟩ 2 = [0] from by decide]
  rw [h1]
  simp only [simRun]
  rw [show ((([1, 1] : List ℚ).drop 0).take (StreamCfg.mk 1 0).chunkSize) = [1] from rfl]
  rw [show detectSpeechEnergy [(1 : ℚ)] = true from by
    simp only [detectSpeechEnergy, meanSqAmp, List.map_cons, List.map_nil, List.sum_cons,
      List.sum_nil, List.length_cons, List.length_nil]
    norm_num]
  simp only [if_true]
  rw [show processAudioChunkCnt ⟨1, 0⟩
      (fun _ => [[(0 : ℚ), 0, 0, 0, 0, 0, 0, 0, 1], [0, 0, 0, 0, 0, 0, 0, 0, 0, 1]]) [1]
      = (['H', 'I'], 1) from by decide]
  decide

/-- C5 amended: the asynchronous worker publishes only the decoded text (each
queue element is the bare string of the corresponding published window);
timestamps equal to `offset / sample_rate` are attached only by the batch-mode
reader `process_uploaded_audio`, whose every result is such a pair. -/
theorem c5_thm (cfg : StreamCfg) (model : ModelAdapter) (wave : List ℚ) :
    (simTrace cfg model wave).queue
      = (simTrace cfg model wave).pub.map (fun p => QItem.txt p.2) ∧
    ∀ r ∈ processUploadedAudio cfg model wave, ∃ i, i ∈ uplOffsets cfg wave.length ∧
      r.1 = (i : ℚ) / (sampleRate : ℚ) ∧
      r.2 = (processAudioChunkCnt cfg model ((wave.drop i).take cfg.chunkSize)).1 :=
  ⟨simRun_queue_eq cfg model wave _, fun r hr => uplRun_mem cfg model wave _ r hr⟩

/-! ## C6 -/

/-- C6: the voice-activity gate returns true exactly when the mean squared
amplitude exceeds the threshold 0.001, and a window whose gate is false is
never dispatched to the model adapter by the worker loop. -/
theorem c6_thm (cfg : StreamCfg) (model : ModelAdapter) (wave : List ℚ) (i : Nat) :
    (∀ chunk : List ℚ, detectSpeechEnergy chunk = true ↔ meanSqAmp chunk > 1 / 1000) ∧
    (detectSpeechEnergy ((wave.drop i).take cfg.chunkSize) = false →
      i ∉ (simTrace cfg model wave).invoked) := by
  refine ⟨fun chunk => by simp [detectSpeechEnergy], fun hfalse hmem => ?_⟩
  have htrue := simRun_invoked_gate cfg model wave _ i hmem
  rw [htrue] at hfalse
  cases hfalse

/-- C6 witness: on an all-zero (silent) waveform, offset 0 is never
dispatched to the model adapter. -/
theorem c6_wit : 0 ∉ (simTrace ⟨2, 1⟩ (fun _ => [[(1 : ℚ)]]) [0, 0, 0]).invoked :=
  (c6_thm ⟨2, 1⟩ (fun _ => [[(1 : ℚ)]]) [0, 0, 0] 0).2 (by
    simp only [detectSpeechEnergy, meanSqAmp, List.drop, List.take, List.map_cons,
      List.map_nil, List.sum_cons, List.sum_nil, List.length_cons, List.length_nil]
    norm_num)

/-! ## Helper lemmas for ordering (C8) -/

theorem pyRange_pairwise (stop step : Nat) :
    List.Pairwise (· < ·) (pyRange stop step) := by
  unfold pyRange
  split
  · exact List.Pairwise.nil
  · rename_i hstep
    refine List.pairwise_map.mpr ?_
    refine (List.pairwise_lt_range _).imp ?_
    intro a b hab
    have hs : 0 < step := Nat.pos_of_ne_zero hstep
    exact Nat.mul_lt_mul_of_lt_of_le hab (Nat.le_refl step) hs

theorem simRun_pub_sublist (cfg : StreamCfg) (model : ModelAdapter) (wave : List ℚ) :
    ∀ offs : List Nat,
      List.Sublist ((simRun cfg model wave offs).pub.map Prod.fst) offs := by
  intro offs
  induction offs with
  | nil => exact List.Sublist.refl []
  | cons i rest ih =>
    simp only [simRun]
    by_cases hd : detectSpeechEnergy ((wave.drop i).take cfg.chunkSize) = true
    · rw [if_pos hd]
      by_cases hp :
          pyStrip (processAudioChunkCnt cfg model ((wave.drop i).take cfg.chunkSize)).1 ≠ []
      · rw [if_pos hp]
        exact List.Sublist.cons₂ i ih
      · rw [if_neg hp]
        exact List.Sublist.cons i ih
    · rw [if_neg hd]
      exact List.Sublist.cons i ih

theorem uplRun_pairwise (cfg : StreamCfg) (model : ModelAdapter) (wave : List ℚ) :
    ∀ offs : List Nat, List.Pairwise (· < ·) offs →
      List.Pairwise (fun a b => a.1 < b.1) (uplRun cfg model wave offs) := by
  intro offs
  induction offs with
  | nil => intro _; simp [uplRun]
  | cons i rest ih =>
    intro hp
    have hcons := List.pairwise_cons.mp hp
    simp only [uplRun]
    by_cases hd : detectSpeechEnergy ((wave.drop i).take cfg.chunkSize) = true
    · rw [if_pos hd]
      by_cases hpub :
          pyStrip (processAudioChunkCnt cfg model ((wave.drop i).take cfg.chunkSize)).1 ≠ []
      · rw [if_pos hpub]
        refine List.pairwise_cons.mpr ⟨?_, ih hcons.2⟩
        intro r hr
        obtain ⟨j, hj, hr1, _⟩ := uplRun_mem cfg model wave rest r hr
        rw [hr1]
        have hij : (i : ℚ) < (j : ℚ) := by exact_mod_cast hcons.1 j hj
        have hpos : (0 : ℚ) < (sampleRate : ℚ) := by norm_num [sampleRate]
        exact div_lt_div_of_pos_right hij hpos
      · rw [if_neg hpub]
        exact ih hcons.2
    · rw [if_neg hd]
      exact ih hcons.2

/-! ## C8 -/

/-- C8: results are delivered in window order on both read surfaces: the
offsets attached to the asynchronous worker's published results are strictly
increasing in queue (FIFO) order, and the batch-mode list of
`process_uploaded_audio` has strictly increasing timestamps. -/
theorem c8_thm (cfg : StreamCfg) (model : ModelAdapter) (wave : List ℚ)
    (h1 : cfg.overlapSize < cfg.chunkSize) (h2 : 2 ≤ cfg.chunkSize) :
    List.Pairwise (· < ·) ((simTrace cfg model wave).pub.map Prod.fst) ∧
    List.Pairwise (fun a b => a.1 < b.1) (processUploadedAudio cfg model wave) := by
  have _ := h1
  have _ := h2
  constructor
  · exact (pyRange_pairwise _ _).sublist (simRun_pub_sublist cfg model wave _)
  · exact uplRun_pairwise cfg model wave _ (pyRange_pairwise _ _)

/-- C8 witness: the ordering statement at a concrete configuration, stub
model and waveform. -/
theorem c8_wit :
    List.Pairwise (· < ·)
      ((simTrace ⟨2, 1⟩ (fun _ => [[(1 : ℚ)]]) [1, 1, 1]).pub.map Prod.fst) ∧
    List.Pairwise (fun a b => a.1 < b.1)
      (processUploadedAudio ⟨2, 1⟩ (fun _ => [[(1 : ℚ)]]) [1, 1, 1]) :=
  c8_thm ⟨2, 1⟩ (fun _ => [[(1 : ℚ)]]) [1, 1, 1] (by decide) (by decide)

/-! ## The cooperative-stop model (C7) -/

/-- An observable event of one worker-loop iteration: the read of the
`is_streaming` flag at the top of the iteration body, or the dispatch of the
window at the given offset to the model adapter. -/
inductive LoopEv where
  | checkFlag (i : Nat)
  | dispatch (i : Nat)
deriving DecidableEq

/-- Whether an event is a model-adapter dispatch. -/
def LoopEv.isDispatch : LoopEv → Bool
  | LoopEv.checkFlag _ => false
  | LoopEv.dispatch _ => true

/-- The event trace of `_simulate_realtime_processing` over the given
offsets: each iteration first reads the flag, then dispatches the window to
the model adapter exactly when the energy gate passes. -/
def traceOf (cfg : StreamCfg) (wave : List ℚ) : List Nat → List LoopEv
  | [] => []
  | i :: rest =>
    LoopEv.checkFlag i ::
      ((if detectSpeechEnergy ((wave.drop i).take cfg.chunkSize) then [LoopEv.dispatch i]
        else []) ++ traceOf cfg wave rest)

/-- The full event trace of the worker loop on a waveform. -/
def loopTrace (cfg : StreamCfg) (wave : List ℚ) : List LoopEv :=
  traceOf cfg wave (simOffsets cfg wave.length)

/-- Executing the worker when `stop_streaming` has flipped `is_streaming` to
false just before the event at position `p` of the trace: a flag read at
position `p` or later observes the stop and breaks out of the loop; any event
already under way keeps running. -/
def execWithStop (p : Nat) : List LoopEv → Nat → List LoopEv
  | [], _ => []
  | LoopEv.checkFlag i :: rest, pos =>
    if p ≤ pos then [] else LoopEv.checkFlag i :: execWithStop p rest (pos + 1)
  | LoopEv.dispatch i :: rest, pos => LoopEv.dispatch i :: execWithStop p rest (pos + 1)

/-- Well-formedness of a worker trace: every dispatch directly follows its
iteration's flag read, so dispatches are never adjacent; the flag `b` records
whether a dispatch may occur first. -/
inductive okTrace : Bool → List LoopEv → Prop where
  | nil (b : Bool) : okTrace b []
  | checkFlag (b : Bool) (i : Nat) (rest : List LoopEv) :
      okTrace true rest → okTrace b (LoopEv.checkFlag i :: rest)
  | dispatch (i : Nat) (rest : List LoopEv) :
      okTrace false rest → okTrace true (LoopEv.dispatch i :: rest)

theorem traceOf_ok (cfg : StreamCfg) (wave : List ℚ) :
    ∀ (offs : List Nat) (b : Bool), okTrace b (traceOf cfg wave offs) := by
  intro offs
  induction offs with
  | nil => intro b; exact okTrace.nil b
  | cons i rest ih =>
    intro b
    unfold traceOf
    by_cases hd : detectSpeechEnergy ((wave.drop i).take cfg.chunkSize) = true
    · rw [if_pos hd, List.singleton_append]
      exact okTrace.checkFlag b i _ (okTrace.dispatch i _ (ih false))
    · rw [if_neg hd, List.nil_append]
      exact okTrace.checkFlag b i _ (ih true)

theorem execWithStop_nil_of_ok (p pos : Nat) (evs : List LoopEv)
    (h : okTrace false evs) (hpos : p ≤ pos) : execWithStop p evs pos = [] := by
  cases h with
  | nil => rfl
  | checkFlag _ i rest h2 => simp [execWithStop, hpos]

theorem execWithStop_dispatch_bound (p : Nat) :
    ∀ (evs : List LoopEv) (b : Bool), okTrace b evs → ∀ pos : Nat,
      ((execWithStop p evs pos).drop (p - pos)).countP LoopEv.isDispatch ≤ 1 := by
  intro evs b h
  induction h with
  | nil b => intro pos; simp [execWithStop]
  | checkFlag b i rest h2 ih =>
    intro pos
    unfold execWithStop
    by_cases hpos : p ≤ pos
    · simp [hpos]
    · rw [if_neg hpos, show p - pos = (p - (pos + 1)) + 1 from by omega, List.drop_succ_cons]
      exact ih (pos + 1)
  | dispatch i rest h2 ih =>
    intro pos
    unfold execWithStop
    by_cases hpos : p ≤ pos
    · rw [show p - pos = 0 from by omega, List.drop_zero,
        execWithStop_nil_of_ok p (pos + 1) rest h2 (by omega)]
      simp [List.countP_cons, LoopEv.isDispatch]
    · rw [show p - pos = (p - (pos + 1)) + 1 from by omega, List.drop_succ_cons]
      exact ih (pos + 1)

theorem execWithStop_prefix (p : Nat) :
    ∀ (evs : List LoopEv) (pos : Nat), (execWithStop p evs pos).IsPrefix evs := by
  intro evs
  induction evs with
  | nil => intro pos; exact List.prefix_refl []
  | cons e rest ih =>
    intro pos
    cases e with
    | checkFlag i =>
      unfold execWithStop
      by_cases hpos : p ≤ pos
      · rw [if_pos hpos]; exact List.nil_prefix
      · rw [if_neg hpos]
        obtain ⟨t, ht⟩ := ih (pos + 1)
        exact ⟨t, by rw [List.cons_append, ht]⟩
    | dispatch i =>
      unfold execWithStop
      obtain ⟨t, ht⟩ := ih (pos + 1)
      exact ⟨t, by rw [List.cons_append, ht]⟩

/-! ## C7 -/

/-- C7: however the stop flag flip interleaves with the loop (flip effective
just before trace position `p`), the executed trace is a prefix of the loop's
trace (the worker exits at the first flag read after the flip, fetching
nothing further), and at most one dispatch to the model adapter — the one
already under way — occurs at or after the flip. -/
theorem c7_thm (cfg : StreamCfg) (wave : List ℚ) (p : Nat) :
    ((execWithStop p (loopTrace cfg wave) 0).drop p).countP LoopEv.isDispatch ≤ 1 ∧
    (execWithStop p (loopTrace cfg wave) 0).IsPrefix (loopTrace cfg wave) := by
  constructor
  · have h := execWithStop_dispatch_bound p (loopTrace cfg wave) true
      (traceOf_ok cfg wave _ true) 0
    simpa using h
  · exact execWithStop_prefix p (loopTrace cfg wave) 0
